import Mathlib

/-!
civitai_model_downloader: the AIR parser, category inference and the download pipeline.

A shallow embedding of `air.go`, `civitai.go` and `main.go`.

Go strings are modelled as lists of Unicode code points (`Str`).  The parts of the Go
standard library the program calls (`strings`, `strconv`, `unicode`, `fmt`) are modelled
next to the functions that use them; what the program obtains from its environment
(HTTP answers, JSON decoding, the file system, `path/filepath`) is a field of `World`.
-/

set_option autoImplicit false

namespace Civitai

/-- A Go string: a sequence of Unicode code points. -/
abbrev Str := List Char

/-- Equality of results is decidable, so that the functions below can be run on inputs. -/
instance instDecidableEqExcept {ε α : Type} [DecidableEq ε] [DecidableEq α] :
    DecidableEq (Except ε α)
  | .ok a, .ok b =>
    if h : a = b then isTrue (h ▸ rfl) else isFalse (fun h' => h (Except.ok.inj h'))
  | .error a, .error b =>
    if h : a = b then isTrue (h ▸ rfl) else isFalse (fun h' => h (Except.error.inj h'))
  | .ok _, .error _ => isFalse (fun h => Except.noConfusion h)
  | .error _, .ok _ => isFalse (fun h => Except.noConfusion h)

/-- The case table of Go's `unicode` package for code points above `MaxASCII`.  The table is
not part of the repository; two facts about it are recorded: a code point outside ASCII never
lower-cases to an ASCII character that is not a lower-case letter, and `utf8.RuneError`
(U+FFFD) has no case. -/
structure CaseTable where
  lower : Char → Char
  lower_ascii : ∀ c : Char, 0x7F < c.toNat → (lower c).toNat ≤ 0x7F →
    'a'.toNat ≤ (lower c).toNat ∧ (lower c).toNat ≤ 'z'.toNat
  lower_RuneError : lower (Char.ofNat 0xFFFD) = Char.ofNat 0xFFFD

/-- The table that leaves every code point above ASCII unchanged. -/
def CaseTable.asciiOnly : CaseTable where
  lower := fun c => c
  lower_ascii := fun _ h h' => absurd h' (Nat.not_le.mpr h)
  lower_RuneError := rfl

/-! ## `unicode` -/

namespace unicode

/-- `unicode.MaxASCII`. -/
def MaxASCII : Nat := 0x7F

/-- The ASCII branch of `unicode.ToLower`: `if 'A' <= r && r <= 'Z' { r += 'a' - 'A' }`. -/
def asciiLower (r : Char) : Char :=
  if 'A'.toNat ≤ r.toNat ∧ r.toNat ≤ 'Z'.toNat then Char.ofNat (r.toNat + 32) else r

/-- `unicode.ToLower`: ASCII is handled directly, the rest goes through the case table. -/
def ToLower (T : CaseTable) (r : Char) : Char :=
  if r.toNat ≤ MaxASCII then asciiLower r else T.lower r

end unicode

/-! ## `strings` -/

namespace strings

/-- `strings.Split(s, sep)` for a separator of one ASCII character. -/
def Split : Str → Char → List Str
  | [], _ => [[]]
  | c :: cs, sep =>
    if c = sep then [] :: Split cs sep
    else
      match Split cs sep with
      | [] => [[c]]
      | e :: es => (c :: e) :: es

/-- `strings.TrimLeft(s, cutset)`. -/
def TrimLeft (s cutset : Str) : Str :=
  s.dropWhile (fun c => decide (c ∈ cutset))

/-- `strings.TrimRight(s, cutset)`. -/
def TrimRight (s cutset : Str) : Str :=
  (s.reverse.dropWhile (fun c => decide (c ∈ cutset))).reverse

/-- `strings.Trim(s, cutset)`: drops every leading and trailing code point that is in `cutset`. -/
def Trim (s cutset : Str) : Str :=
  TrimRight (TrimLeft s cutset) cutset

/-- `strings.ToLower`: strings of ASCII only are lower-cased byte by byte, the others are
mapped with `unicode.ToLower`. -/
def ToLower (T : CaseTable) (s : Str) : Str :=
  if s.all (fun c => decide (c.toNat ≤ unicode.MaxASCII)) then s.map unicode.asciiLower
  else s.map (unicode.ToLower T)

/-- `strings.HasPrefix(s, p)`. -/
def HasPrefix (s p : Str) : Bool :=
  p.isPrefixOf s

/-- `strings.ReplaceAll(s, old, new)` for `old` and `new` of one character each. -/
def ReplaceAll (s : Str) (old new : Char) : Str :=
  s.map (fun c => if c = old then new else c)

end strings

/-! ## `strconv` -/

namespace strconv

/-- The two errors of `strconv`: `ErrSyntax` and `ErrRange`. -/
inductive NumError where
  | ErrSyntax
  | ErrRange
  deriving DecidableEq, Repr

/-- The size of `int` in bits (a 64-bit target). -/
def intSize : Nat := 64

/-- The value of a decimal digit, or `none` for any other character. -/
def digit (c : Char) : Option Nat :=
  if '0'.toNat ≤ c.toNat ∧ c.toNat ≤ '9'.toNat then some (c.toNat - '0'.toNat) else none

/-- The digit loop of `strconv.ParseUint(s, 10, 64)`, `n` being the value read so far: a
character that is no digit is a syntax error, a value above `2^64 - 1` a range error, whichever
comes first. -/
def parseUintLoop : Str → Nat → Except NumError Nat
  | [], n => .ok n
  | c :: cs, n =>
    match digit c with
    | none => .error .ErrSyntax
    | some d =>
      if (2 ^ 64 - 1) / 10 + 1 ≤ n then .error .ErrRange
      else if 2 ^ 64 - 1 < n * 10 + d then .error .ErrRange
      else parseUintLoop cs (n * 10 + d)

/-- `strconv.ParseUint(s, 10, 64)`. -/
def ParseUint (s : Str) : Except NumError Nat :=
  match s with
  | [] => .error .ErrSyntax
  | _ :: _ => parseUintLoop s 0

/-- `strconv.Atoi`: an optional sign, then decimal digits, the value within `int`.  (The fast
path Go takes for short strings returns the same values and errors as the general path
`ParseInt(s, 10, 0)`, which is the one written here.) -/
def Atoi (s : Str) : Except NumError Int :=
  match s with
  | [] => .error .ErrSyntax
  | c :: cs =>
    let neg := decide (c = '-')
    let body := if c = '+' ∨ c = '-' then cs else s
    match ParseUint body with
    | .error e => .error e
    | .ok un =>
      if !neg ∧ 2 ^ (intSize - 1) ≤ un then .error .ErrRange
      else if neg ∧ 2 ^ (intSize - 1) < un then .error .ErrRange
      else .ok (if neg then -(un : Int) else (un : Int))

end strconv

/-! ## `air.go` -/

/-- The struct `AirResource`. -/
structure AirResource where
  ecosystem : Str
  type_name : Str
  source : Str
  model_id : Int
  version_id : Int
  format : Str
  deriving DecidableEq, Repr

/-- The numeric tail of `parseAirModelPart`: both `strconv.Atoi` calls and the final return,
for `parts` as left by the two splits. -/
def parseAirModelPart.convert (parts0 parts1 parts2 : Str) : Except Str (Int × Int × Str) :=
  match strconv.Atoi parts0 with
  | .error _ =>
    .error ("unable to parse model id: '".toList ++ parts0 ++ "' to integer".toList)
  | .ok model_id =>
    match strconv.Atoi parts1 with
    | .error _ =>
      .error ("unable to parse version id: '".toList ++ parts1 ++ "' to integer".toList)
    | .ok version_id => .ok (model_id, version_id, parts2)

/-- The second half of `parseAirModelPart`: the split of `parts[0]` on `@`. -/
def parseAirModelPart.version (air_model_part parts0 parts2 : Str) :
    Except Str (Int × Int × Str) :=
  match strings.Split parts0 '@' with
  | _ :: _ :: _ :: _ =>
    .error ("invalid model id: '".toList ++ air_model_part ++
      "' too many '@' characters".toList)
  | [e0, e1] => parseAirModelPart.convert e0 e1 parts2
  | _ => parseAirModelPart.convert parts0 "-1".toList parts2

/-- `parseAirModelPart`: model id, version id and format of the model part of an AIR. -/
def parseAirModelPart (air_model_part : Str) : Except Str (Int × Int × Str) :=
  match strings.Split air_model_part '.' with
  | _ :: _ :: _ :: _ =>
    .error ("invalid model id: '".toList ++ air_model_part ++
      "' too many '.' characters".toList)
  | [e0, e1] => parseAirModelPart.version air_model_part e0 e1
  | _ => parseAirModelPart.version air_model_part air_model_part []

/-- The prefix switch of `parseAir`: `uri` when one of the three prefixes is there, `none` in
the final `else`. -/
def parseAir.uri (lower : Str) : Option Str :=
  if strings.HasPrefix lower "urn:".toList then
    if strings.HasPrefix lower "urn:air:".toList then some (lower.drop 8)
    else some (lower.drop 4)
  else if strings.HasPrefix lower "air:".toList then some (lower.drop 4)
  else none

/-- `parseAir`: parse an AIR urn into a struct.  In the branch without a known prefix the
variable `uri` of the source is still the empty string when the message is formatted. -/
def parseAir (T : CaseTable) (identifier : Str) : Except Str AirResource :=
  let trimmed := strings.Trim identifier "\\s".toList
  let lower := strings.ToLower T trimmed
  let uri0 : Str := []
  match parseAir.uri lower with
  | none => .error ("invalid AIR: ".toList ++ uri0)
  | some uri =>
    match strings.Split uri ':' with
    | [e0, e1, e2, e3] =>
      match parseAirModelPart e3 with
      | .error err => .error err
      | .ok (model_id, version_id, format) =>
        .ok { ecosystem := e0, type_name := e1, source := e2,
              model_id := model_id, version_id := version_id, format := format }
    | _ => .error ("invalid AIR: ".toList ++ uri)

/-! ## `fmt` -/

namespace fmt

/-- The verb `%d` for an `int`. -/
def d : Int → Str
  | .ofNat n => Nat.toDigits 10 n
  | .negSucc n => '-' :: Nat.toDigits 10 (n + 1)

/-- The verb `%v` for a `*AirResource`: `&` and the fields between braces, blanks between. -/
def v (r : AirResource) : Str :=
  "&\x7b".toList ++ r.ecosystem ++ " ".toList ++ r.type_name ++ " ".toList ++ r.source ++
    " ".toList ++ d r.model_id ++ " ".toList ++ d r.version_id ++ " ".toList ++ r.format ++
    "\x7d".toList

end fmt

/-! ## `civitai.go` -/

/-- The list `CATEGORIES` of site categories. -/
def CATEGORIES : List Str :=
  ["character".toList, "style".toList, "celebrity".toList, "concept".toList,
   "clothing".toList, "base model".toList, "poses".toList, "background".toList,
   "tool".toList, "buildings".toList, "vehicle".toList, "objects".toList,
   "animal".toList, "action".toList, "asset".toList]

/-- The inner loop of `GetCategory`: does the lower-cased tag equal one of `categories`? -/
def GetCategory.inner (T : CaseTable) (tag : Str) : List Str → Bool
  | [] => false
  | category :: categories =>
    if strings.ToLower T tag = category then true else GetCategory.inner T tag categories

/-- `GetCategory`: guesses a category for a model from its tags. -/
def GetCategory (T : CaseTable) : List Str → Str
  | [] => "misc".toList
  | tag :: tags => if GetCategory.inner T tag CATEGORIES then tag else GetCategory T tags

/-- The struct `CivitaiFile`.  `SizeKB` (a `float32` in the source) only sizes the progress
bar, which is not modelled. -/
structure CivitaiFile where
  SizeKB : Nat
  Name : Str
  Type_ : Str
  Primary : Bool
  URL : Str
  deriving DecidableEq, Repr

/-- The struct `CivitaiImage`. -/
structure CivitaiImage where
  URL : Str
  deriving DecidableEq, Repr

/-- The struct `CivitaiModel`. -/
structure CivitaiModel where
  Id : Int
  Name : Str
  Type_ : Str
  Tags : List Str
  Category : Str
  deriving DecidableEq, Repr

/-- The struct `CivitaiModelVersion`. -/
structure CivitaiModelVersion where
  Id : Int
  Name : Str
  ModelId : Int
  Type_ : Str
  Files : List CivitaiFile
  Images : List CivitaiImage
  deriving DecidableEq, Repr

/-- The loop of `PrimaryFile` over `c.Files`. -/
def PrimaryFile.loop : List CivitaiFile → Option CivitaiFile
  | [] => none
  | f :: fs => if f.Primary then some f else PrimaryFile.loop fs

/-- `CivitaiModelVersion.PrimaryFile`: the first file marked primary, `none` for `nil`. -/
def CivitaiModelVersion.PrimaryFile (c : CivitaiModelVersion) : Option CivitaiFile :=
  PrimaryFile.loop c.Files

/-- What the program does to the outside, in the order it does it. -/
inductive Effect where
  | request (method url : Str) (header : List (Str × Str))
  | create (path : Str)
  | write (path data : Str)
  | mkdirAll (path : Str)
  | debug (msg : Str)
  | info (msg : Str)
  | error (msg : Str)
  deriving DecidableEq, Repr

/-- The effects so far, oldest first. -/
abbrev Trace := List Effect

/-- A response body as the successive `Read` calls deliver it: the bytes of each call and
its error (other than `io.EOF`), if any.  Past the end of the list `Read` gives `0, io.EOF`. -/
abbrev Body := List (Str × Option Str)

/-- What `http.Client.Do` answers: a transport error, or a status code and a body. -/
inductive RoundTrip where
  | failed (err : Str)
  | response (StatusCode : Int) (body : Body)

/-- The `*http.Response` the client hands on. -/
structure Response where
  StatusCode : Int
  body : Body

/-- The environment of the program: the case table of `unicode`, the remote service, the
JSON decoder, the file system and `path/filepath`.  Answers may depend on the effects so far. -/
structure World where
  caseTable : CaseTable
  NewRequest : Str → Str → Option Str
  RoundTrip : Trace → Str → Str → List (Str × Str) → RoundTrip
  UnmarshalModel : Str → Except Str CivitaiModel
  UnmarshalModelVersion : Str → Except Str CivitaiModelVersion
  Create : Trace → Str → Option Str
  Write : Trace → Str → Str → Option Str
  Join : List Str → Str
  Base : Str → Str

/-- A Go result pair `(value, error)`; each side may be `nil`, here `none`. -/
structure Ret (α : Type) where
  val : Option α
  err : Option Str

/-- The struct `CivitaiClient`; the field `client` is the `World`. -/
structure CivitaiClient where
  host : Str
  api_key : Option Str

/-- `NewCivitaiClient`. -/
def NewCivitaiClient (api_key : Option Str) : CivitaiClient :=
  { host := "https://civitai.com/api/v1".toList, api_key := api_key }

/-- `CivitaiClient.Do`.  The result is the trace after the call and what the call returns,
`none` when it panics: the headers are added before the error of `http.NewRequest` is looked
at, so a failed `NewRequest` with a header to add is a nil dereference. -/
def CivitaiClient.Do (W : World) (c : CivitaiClient) (tr : Trace) (method url : Str)
    (headers : Option (List (Str × Str))) : Trace × Option (Ret Response) :=
  match W.NewRequest method url with
  | some err =>
    if headers.getD [] ≠ [] ∨ c.api_key.isSome then (tr, none)
    else (tr, some ⟨none, some err⟩)
  | none =>
    let header := headers.getD [] ++
      (match c.api_key with
       | some key => [("Authorization".toList, "Bearer ".toList ++ key)]
       | none => [])
    let tr1 := tr ++ [.debug ("retrieving data from url: ".toList ++ url)]
    let tr2 := tr1 ++ [.request method url header]
    match W.RoundTrip tr1 method url header with
    | .failed err => (tr2, some ⟨none, some err⟩)
    | .response code body =>
      if code = 200 then (tr2, some ⟨some ⟨code, body⟩, none⟩)
      else if code = 401 then
        (tr2, some ⟨none,
          some "HTTP Error: 401: Unauthorized Request, Check your API KEY.".toList⟩)
      else if 400 ≤ code ∧ code < 500 then
        (tr2, some ⟨none, some ("HTTP Error: ".toList ++ fmt.d code ++
          ": Bad Request. Civitai may be down.".toList)⟩)
      else if 500 ≤ code ∧ code < 600 then
        (tr2, some ⟨none, some ("HTTP Error: ".toList ++ fmt.d code ++
          ": Service Unavailable. Civitai may be down or conducting maintenance.".toList)⟩)
      else (tr2, some ⟨none, some ("HTTP Error: ".toList ++ fmt.d code)⟩)

/-- `CivitaiClient.Get`. -/
def CivitaiClient.Get (W : World) (c : CivitaiClient) (tr : Trace) (url : Str)
    (headers : Option (List (Str × Str))) : Trace × Option (Ret Response) :=
  c.Do W tr "GET".toList url headers

/-- `CivitaiClient.GetJson`. -/
def CivitaiClient.GetJson (W : World) (c : CivitaiClient) (tr : Trace) (url : Str) :
    Trace × Option (Ret Response) :=
  c.Get W tr url (some [("Content-Type".toList, "application/json".toList)])

/-- `io.ReadAll`: everything read up to the end of the body, or the first read error. -/
def ReadAll : Body → Except Str Str
  | [] => .ok []
  | (_, some err) :: _ => .error err
  | (data, none) :: rest =>
    match ReadAll rest with
    | .error err => .error err
    | .ok more => .ok (data ++ more)

/-- The `for` loop of `CivitaiClient.Download`: a read error ends it with that error, an empty
read ends it, anything else is written to the file. -/
def Download.loop (W : World) (filename : Str) : Body → Trace → Trace × Option Str
  | [], tr => (tr, none)
  | (_, some err) :: _, tr => (tr, some err)
  | (data, none) :: rest, tr =>
    if data.length = 0 then (tr, none)
    else
      match W.Write tr filename data with
      | some err => (tr ++ [.write filename data], some err)
      | none => Download.loop W filename rest (tr ++ [.write filename data])

/-- `CivitaiClient.Download`; the value returned is its `error`. -/
def CivitaiClient.Download (W : World) (c : CivitaiClient) (tr : Trace) (url filename : Str) :
    Trace × Option (Option Str) :=
  let tr0 := tr ++ [.debug ("Downloading: ".toList ++ url)]
  match c.Get W tr0 url none with
  | (tr1, none) => (tr1, none)
  | (tr1, some ⟨_, some err⟩) => (tr1, some (some err))
  | (tr1, some ⟨none, none⟩) => (tr1, none)
  | (tr1, some ⟨some response, none⟩) =>
    match W.Create tr1 filename with
    | some err => (tr1 ++ [.create filename], some (some err))
    | none =>
      let (tr2, err) := Download.loop W filename response.body (tr1 ++ [.create filename])
      (tr2, some err)

/-- `CivitaiClient.DownloadImage`. -/
def CivitaiClient.DownloadImage (W : World) (c : CivitaiClient) (tr : Trace)
    (image : CivitaiImage) (path : Str) : Trace × Option (Option Str) :=
  c.Download W tr image.URL path

/-- `CivitaiClient.DownloadFile`. -/
def CivitaiClient.DownloadFile (W : World) (c : CivitaiClient) (tr : Trace)
    (file : CivitaiFile) (path : Str) : Trace × Option (Option Str) :=
  c.Download W tr file.URL path

/-- The image loop of `DownloadModelVersion`. -/
def DownloadModelVersion.images (W : World) (c : CivitaiClient) (directory : Str) :
    List CivitaiImage → Trace → Trace × Option (Option Str)
  | [], tr => (tr, some none)
  | image :: images, tr =>
    let image_name := W.Base image.URL
    let image_path := W.Join [directory, image_name]
    match c.DownloadImage W tr image image_path with
    | (tr1, none) => (tr1, none)
    | (tr1, some (some err)) => (tr1, some (some err))
    | (tr1, some none) => DownloadModelVersion.images W c directory images tr1

/-- `CivitaiClient.DownloadModelVersion`; the value returned is its `error`. -/
def CivitaiClient.DownloadModelVersion (W : World) (c : CivitaiClient) (tr : Trace)
    (model_version : CivitaiModelVersion) (directory : Str) : Trace × Option (Option Str) :=
  match model_version.PrimaryFile with
  | none => (tr, some (some (model_version.Name ++ " has no primary file.".toList)))
  | some primary_file =>
    let model_path := W.Join [directory, primary_file.Name]
    match c.DownloadFile W tr primary_file model_path with
    | (tr1, none) => (tr1, none)
    | (tr1, some (some err)) => (tr1, some (some err))
    | (tr1, some none) =>
      DownloadModelVersion.images W c directory model_version.Images
        (tr1 ++ [.info "Downloading Images".toList])

/-- `CivitaiClient.GetModel`.  When `json.Unmarshal` fails the function returns `nil` and the
variable `err`, which at that point holds the `nil` left by `io.ReadAll`. -/
def CivitaiClient.GetModel (W : World) (c : CivitaiClient) (tr : Trace) (model_id : Int) :
    Trace × Option (Ret CivitaiModel) :=
  let tr0 := tr ++ [.debug ("Getting Model from ID: ".toList ++ fmt.d model_id)]
  let url := c.host ++ "/models/".toList ++ fmt.d model_id
  match c.GetJson W tr0 url with
  | (tr1, none) => (tr1, none)
  | (tr1, some ⟨_, some err⟩) => (tr1, some ⟨none, some err⟩)
  | (tr1, some ⟨none, none⟩) => (tr1, none)
  | (tr1, some ⟨some response, none⟩) =>
    match ReadAll response.body with
    | .error err => (tr1, some ⟨none, some err⟩)
    | .ok data_as_bytes =>
      let err : Option Str := none
      match W.UnmarshalModel data_as_bytes with
      | .error _ => (tr1, some ⟨none, err⟩)
      | .ok model =>
        (tr1, some ⟨some { model with Category := GetCategory W.caseTable model.Tags }, none⟩)

/-- `CivitaiClient.GetModelVersion`. -/
def CivitaiClient.GetModelVersion (W : World) (c : CivitaiClient) (tr : Trace)
    (version_id : Int) : Trace × Option (Ret CivitaiModelVersion) :=
  let tr0 := tr ++ [.debug ("Getting Model Version from ID: ".toList ++ fmt.d version_id)]
  let url := c.host ++ "/model-versions/".toList ++ fmt.d version_id
  match c.GetJson W tr0 url with
  | (tr1, none) => (tr1, none)
  | (tr1, some ⟨_, some err⟩) => (tr1, some ⟨none, some err⟩)
  | (tr1, some ⟨none, none⟩) => (tr1, none)
  | (tr1, some ⟨some response, none⟩) =>
    if response.StatusCode ≠ 200 then
      (tr1, some ⟨none, some ("Request failed with error code: ".toList ++
        fmt.d response.StatusCode)⟩)
    else
      match ReadAll response.body with
      | .error err => (tr1, some ⟨none, some err⟩)
      | .ok data_as_bytes =>
        match W.UnmarshalModelVersion data_as_bytes with
        | .error err => (tr1, some ⟨none, some err⟩)
        | .ok model_version => (tr1, some ⟨some model_version, none⟩)

/-! ## `main.go` -/

/-- The slice expression `s[:n]` on a string: its first `n` bytes in UTF-8, `none` (a run-time
panic, slice bounds out of range) when the string has fewer than `n` bytes.  The bytes of a
code point cut in the middle are no valid UTF-8 any more; each is written U+FFFD, which is what
`strings.ToLower` turns such a byte into. -/
def byteSliceTo : Str → Nat → Option Str
  | _, 0 => some []
  | [], _ + 1 => none
  | c :: cs, n + 1 =>
    if c.utf8Size ≤ n + 1 then
      match byteSliceTo cs (n + 1 - c.utf8Size) with
      | none => none
      | some rest => some (c :: rest)
    else some (List.replicate (n + 1) (Char.ofNat 0xFFFD))

/-- Where the producer stands: the resources sent on the channel, the effects (log lines),
and whether it has panicked. -/
structure Producer where
  sent : List AirResource
  trace : Trace
  panicked : Bool
  deriving DecidableEq, Repr

/-- The `for` loop of `watch_clipboard` over the snippets the clipboard delivers. -/
def watch_clipboard.loop (T : CaseTable) : List Str → List AirResource → Trace → Producer
  | [], sent, tr => { sent := sent, trace := tr, panicked := false }
  | text_as_str :: clips, sent, tr =>
    match byteSliceTo text_as_str 7 with
    | none => { sent := sent, trace := tr, panicked := true }
    | some head =>
      if strings.ToLower T head ≠ "urn:air".toList then watch_clipboard.loop T clips sent tr
      else
        match parseAir T text_as_str with
        | .error _ =>
          watch_clipboard.loop T clips sent
            (tr ++ [.error ("Invalid AIR: ".toList ++ text_as_str)])
        | .ok res => watch_clipboard.loop T clips (sent ++ [res]) tr

/-- `watch_clipboard`, run on the snippets `clips` of the clipboard channel. -/
def watch_clipboard (T : CaseTable) (clips : List Str) : Producer :=
  watch_clipboard.loop T clips [] [.info "Starting Clipboard Watcher".toList]

/-- Where the consumer stands: the effects so far and whether it has panicked. -/
structure Consumer where
  trace : Trace
  panicked : Bool
  deriving DecidableEq, Repr

/-- The `for` loop of `download_models` over the resources received on the channel.  A nil
`version_data` or `model_data` that comes with a nil error is dereferenced, which panics. -/
def download_models.loop (W : World) (client : CivitaiClient) (directory : Str) :
    List AirResource → Trace → Consumer
  | [], tr => { trace := tr, panicked := false }
  | resource :: resources, tr =>
    let tr0 := tr ++ [.info ("Resource Found: ".toList ++ fmt.v resource)]
    match client.GetModelVersion W tr0 resource.version_id with
    | (tr1, none) => { trace := tr1, panicked := true }
    | (tr1, some ⟨_, some err⟩) =>
      download_models.loop W client directory resources
        (tr1 ++ [.error ("Error getting version data for ".toList ++ fmt.v resource ++
          ": ".toList ++ err)])
    | (tr1, some ⟨none, none⟩) => { trace := tr1, panicked := true }
    | (tr1, some ⟨some version_data, none⟩) =>
      match client.GetModel W tr1 version_data.ModelId with
      | (tr2, none) => { trace := tr2, panicked := true }
      | (tr2, some ⟨_, some err⟩) =>
        download_models.loop W client directory resources
          (tr2 ++ [.error ("Error getting model data for ".toList ++ fmt.v resource ++
            ": Error: ".toList ++ err)])
      | (tr2, some ⟨none, none⟩) => { trace := tr2, panicked := true }
      | (tr2, some ⟨some model_data, none⟩) =>
        let type_str := strings.ReplaceAll model_data.Type_ ' ' '_'
        let m_name := strings.ReplaceAll model_data.Name ' ' '_'
        let v_name := strings.ReplaceAll version_data.Name ' ' '_'
        let category := strings.ReplaceAll model_data.Category ' ' '_'
        let model_directory := W.Join [directory, type_str, category, m_name, v_name]
        let tr3 := tr2 ++ [.mkdirAll model_directory]
        match client.DownloadModelVersion W tr3 version_data model_directory with
        | (tr4, none) => { trace := tr4, panicked := true }
        | (tr4, some (some err)) =>
          download_models.loop W client directory resources
            (tr4 ++ [.error ("Error downloading model '".toList ++ version_data.Name ++
              "': ".toList ++ err)])
        | (tr4, some none) =>
          download_models.loop W client directory resources
            (tr4 ++ [.error "\nDownload Complete.\n".toList])

/-- `download_models`, run on the resources `resources` of the channel. -/
def download_models (W : World) (api_key directory : Str) (resources : List AirResource) :
    Consumer :=
  download_models.loop W (NewCivitaiClient (some api_key)) directory resources
    [.info "Waiting for models to download...".toList]

/-! ## Numbers in decimal -/

/-- The number a string of decimal digits denotes. -/
def decimalValue (M : Str) : Nat :=
  M.foldl (fun n c => n * 10 + (c.toNat - '0'.toNat)) 0

/-! ## A remote service to run the pipeline on -/

/-- The version record of the example: one file, not primary, and one image. -/
def exampleVersion : CivitaiModelVersion :=
  { Id := 5678, Name := "v1.0".toList, ModelId := 1234, Type_ := "LORA".toList,
    Files := [{ SizeKB := 4, Name := "config.yaml".toList, Type_ := "Config".toList,
                Primary := false, URL := "https://civitai.com/api/download/1".toList }],
    Images := [{ URL := "https://image.civitai.com/preview.png".toList }] }

/-- The model record of the example, as decoded (the category is not part of the JSON). -/
def exampleModel : CivitaiModel :=
  { Id := 1234, Name := "Some Model".toList, Type_ := "LORA".toList,
    Tags := ["anime".toList, "character".toList], Category := [] }

/-- A remote service that answers the version endpoint of id 5678 with a body decoding to
`exampleVersion`, the model endpoint of id 1234 with status 200 and the body `modelBody`,
which decodes (to `exampleModel`) only when it is the text "model", and anything else with
404.  Paths are joined with a slash and the file system never fails. -/
def exampleWorld (modelBody : Str) : World where
  caseTable := CaseTable.asciiOnly
  NewRequest := fun _ _ => none
  RoundTrip := fun _ _ url _ =>
    if url = "https://civitai.com/api/v1/model-versions/5678".toList then
      .response 200 [("version".toList, none)]
    else if url = "https://civitai.com/api/v1/models/1234".toList then
      .response 200 [(modelBody, none)]
    else .response 404 []
  UnmarshalModel := fun data =>
    if data = "model".toList then .ok exampleModel
    else .error "invalid character".toList
  UnmarshalModelVersion := fun data =>
    if data = "version".toList then .ok exampleVersion
    else .error "invalid character".toList
  Create := fun _ _ => none
  Write := fun _ _ _ => none
  Join := fun parts => "/".toList.intercalate parts
  Base := fun url => (strings.Split url '/').getLast?.getD []

/-- The resource the AIR `urn:air:sd1:lora:civitai:1234@5678` parses to. -/
def exampleResource : AirResource :=
  { ecosystem := "sd1".toList, type_name := "lora".toList, source := "civitai".toList,
    model_id := 1234, version_id := 5678, format := [] }

/-! ## Lemmas on the string functions -/

/-- `strings.Split` never returns the empty list. -/
theorem strings.Split_ne_nil (s : Str) (sep : Char) : strings.Split s sep ≠ [] := by
  cases s with
  | nil => simp [strings.Split]
  | cons c cs =>
    by_cases h : c = sep
    · simp [strings.Split, h]
    · cases hs : strings.Split cs sep <;> simp [strings.Split, h, hs]

/-- `strings.Split` returns one element more than there are separators. -/
theorem strings.Split_length (s : Str) (sep : Char) :
    (strings.Split s sep).length = s.count sep + 1 := by
  induction s with
  | nil => simp [strings.Split]
  | cons c cs ih =>
    by_cases h : c = sep
    · subst h
      simp [strings.Split, ih]
    · have hc : (c :: cs).count sep = cs.count sep := List.count_cons_of_ne (Ne.symm h) cs
      cases hs : strings.Split cs sep with
      | nil => exact absurd hs (strings.Split_ne_nil cs sep)
      | cons e es =>
        rw [hs] at ih
        simp only [strings.Split, h, if_false, hs, hc]
        simpa using ih

/-- The first element of `strings.Split` is the string up to the first separator. -/
theorem strings.Split_head (s : Str) (sep : Char) :
    (strings.Split s sep).head? = some (s.takeWhile (fun c => decide (c ≠ sep))) := by
  induction s with
  | nil => simp [strings.Split]
  | cons c cs ih =>
    by_cases h : c = sep
    · simp [strings.Split, h, List.takeWhile]
    · cases hs : strings.Split cs sep with
      | nil => exact absurd hs (strings.Split_ne_nil cs sep)
      | cons e es =>
        rw [hs] at ih
        simp only [List.head?_cons, Option.some.injEq] at ih
        simp [strings.Split, h, hs, List.takeWhile, ih]

/-- A string without the separator is not split. -/
theorem strings.Split_of_not_mem (s : Str) (sep : Char) (h : sep ∉ s) :
    strings.Split s sep = [s] := by
  induction s with
  | nil => simp [strings.Split]
  | cons c cs ih =>
    have hc : c ≠ sep := fun e => h (e ▸ List.mem_cons_self _ _)
    have hcs : sep ∉ cs := fun e => h (List.mem_cons_of_mem _ e)
    simp [strings.Split, hc, ih hcs]

/-- The first separator of a string splits off what is before it. -/
theorem strings.Split_append (a b : Str) (sep : Char) (h : sep ∉ a) :
    strings.Split (a ++ sep :: b) sep = a :: strings.Split b sep := by
  induction a with
  | nil => simp [strings.Split]
  | cons c cs ih =>
    have hc : c ≠ sep := fun e => h (e ▸ List.mem_cons_self _ _)
    have hcs : sep ∉ cs := fun e => h (List.mem_cons_of_mem _ e)
    simp [strings.Split, hc, ih hcs]

/-- A list of three elements or more begins with three elements. -/
theorem three_le_length {α : Type} (l : List α) (h : 3 ≤ l.length) :
    ∃ a b c t, l = a :: b :: c :: t := by
  match l, h with
  | a :: b :: c :: t, _ => exact ⟨a, b, c, t, rfl⟩

/-- `strings.ToLower` lower-cases code point by code point: on ASCII the two branches agree. -/
theorem strings.ToLower_eq_map (T : CaseTable) (s : Str) :
    strings.ToLower T s = s.map (unicode.ToLower T) := by
  unfold strings.ToLower
  split_ifs with h
  · apply List.map_congr_left
    intro c hc
    have hc' : c.toNat ≤ unicode.MaxASCII := by
      have := (List.all_eq_true.1 h) c hc
      simpa using this
    simp [unicode.ToLower, hc']
  · rfl

/-- `dropWhile` stops inside the second list when that list begins with an element to keep. -/
theorem dropWhile_append_keep {α : Type} (f : α → Bool) (a : List α) (x : α) (b : List α)
    (hx : f x = false) :
    (a ++ x :: b).dropWhile f = a.dropWhile f ++ x :: b := by
  induction a with
  | nil => simp [List.dropWhile, hx]
  | cons y ys ih =>
    cases hy : f y
    · simp [List.dropWhile, hy]
    · simp [List.dropWhile, hy, ih]

/-- `strings.TrimRight` does not go past a code point that is outside the cutset. -/
theorem strings.TrimRight_append (q : Str) (x : Char) (r cutset : Str) (hx : x ∉ cutset) :
    strings.TrimRight (q ++ x :: r) cutset = q ++ x :: strings.TrimRight r cutset := by
  have hf : (fun c => decide (c ∈ cutset)) x = false := by simpa using hx
  have hrev : (q ++ x :: r).reverse = r.reverse ++ x :: q.reverse := by simp
  unfold strings.TrimRight
  rw [hrev, dropWhile_append_keep (fun c => decide (c ∈ cutset)) r.reverse x q.reverse hf]
  simp

/-- `strings.TrimLeft` leaves a string alone that begins outside the cutset. -/
theorem strings.TrimLeft_cons (x : Char) (r cutset : Str) (hx : x ∉ cutset) :
    strings.TrimLeft (x :: r) cutset = x :: r := by
  have hf : decide (x ∈ cutset) = false := by simpa using hx
  simp [strings.TrimLeft, List.dropWhile, hf]

/-! ## Category inference -/

/-- The inner loop of `GetCategory` finds a category exactly when the lower-cased tag is one. -/
theorem GetCategory.inner_iff (T : CaseTable) (tag : Str) (categories : List Str) :
    GetCategory.inner T tag categories = true ↔ strings.ToLower T tag ∈ categories := by
  induction categories with
  | nil => simp [GetCategory.inner]
  | cons c cs ih =>
    by_cases h : strings.ToLower T tag = c
    · simp [GetCategory.inner, h]
    · simp [GetCategory.inner, h, ih]

/-- A tag that matches a category is returned as it is. -/
theorem GetCategory_cons_match (T : CaseTable) (tag : Str) (tags : List Str)
    (h : strings.ToLower T tag ∈ CATEGORIES) : GetCategory T (tag :: tags) = tag := by
  have hin : GetCategory.inner T tag CATEGORIES = true := (GetCategory.inner_iff T tag _).2 h
  simp [GetCategory, hin]

/-- A tag that matches no category is passed over. -/
theorem GetCategory_cons_skip (T : CaseTable) (tag : Str) (tags : List Str)
    (h : strings.ToLower T tag ∉ CATEGORIES) :
    GetCategory T (tag :: tags) = GetCategory T tags := by
  have hin : GetCategory.inner T tag CATEGORIES = false := by
    cases hb : GetCategory.inner T tag CATEGORIES with
    | false => rfl
    | true => exact absurd ((GetCategory.inner_iff T tag _).1 hb) h
  simp [GetCategory, hin]

/-- The result of `GetCategory` is "misc" or a tag of the list that matches a category. -/
theorem GetCategory_misc_or_match (T : CaseTable) (tags : List Str) :
    (GetCategory T tags = "misc".toList ∧ ∀ tag ∈ tags, strings.ToLower T tag ∉ CATEGORIES) ∨
      (GetCategory T tags ∈ tags ∧ strings.ToLower T (GetCategory T tags) ∈ CATEGORIES) := by
  induction tags with
  | nil => exact Or.inl ⟨rfl, by simp⟩
  | cons t ts ih =>
    by_cases h : strings.ToLower T t ∈ CATEGORIES
    · rw [GetCategory_cons_match T t ts h]
      exact Or.inr ⟨List.mem_cons_self _ _, h⟩
    · rw [GetCategory_cons_skip T t ts h]
      rcases ih with ⟨h1, h2⟩ | ⟨h1, h2⟩
      · refine Or.inl ⟨h1, ?_⟩
        intro tag htag
        rcases List.mem_cons.1 htag with rfl | hmem
        · exact h
        · exact h2 tag hmem
      · exact Or.inr ⟨List.mem_cons_of_mem _ h1, h2⟩

/-- C7: `GetCategory` returns the first tag, in list order and as written, whose lower-cased
form is one of `CATEGORIES` (membership, whatever the order of `CATEGORIES`); it returns "misc"
exactly when no tag matches; the result is never the empty string; and the tags
"anime", "character", "style" give "character". -/
theorem GetCategory_first_matching_tag (T : CaseTable) (tags : List Str) :
    GetCategory T tags =
        (tags.find? (fun tag => decide (strings.ToLower T tag ∈ CATEGORIES))).getD
          "misc".toList ∧
      (GetCategory T tags = "misc".toList ↔
        ∀ tag ∈ tags, strings.ToLower T tag ∉ CATEGORIES) ∧
      GetCategory T tags ≠ [] ∧
      GetCategory T ["anime".toList, "character".toList, "style".toList] =
        "character".toList := by
  refine ⟨?_, ?_, ?_, rfl⟩
  · induction tags with
    | nil => rfl
    | cons t ts ih =>
      by_cases h : strings.ToLower T t ∈ CATEGORIES
      · rw [GetCategory_cons_match T t ts h]
        simp [List.find?, h]
      · rw [GetCategory_cons_skip T t ts h, ih]
        simp [List.find?, h]
  · constructor
    · intro hm
      rcases GetCategory_misc_or_match T tags with ⟨_, h2⟩ | ⟨_, h2⟩
      · exact h2
      · rw [hm] at h2
        have hl : strings.ToLower T "misc".toList = "misc".toList := rfl
        rw [hl] at h2
        exact absurd h2 (by decide)
    · intro hno
      rcases GetCategory_misc_or_match T tags with ⟨h1, _⟩ | ⟨h1, h2⟩
      · exact h1
      · exact absurd h2 (hno _ h1)
  · intro hnil
    rcases GetCategory_misc_or_match T tags with ⟨h1, _⟩ | ⟨_, h2⟩
    · rw [hnil] at h1
      exact absurd h1 (by decide)
    · rw [hnil] at h2
      have hl : strings.ToLower T [] = [] := rfl
      rw [hl] at h2
      exact absurd h2 (by decide)

/-! ## The pipeline -/

/-- Without a file marked primary the loop of `PrimaryFile` finds nothing. -/
theorem PrimaryFile.loop_none (files : List CivitaiFile)
    (h : ∀ f ∈ files, f.Primary = false) : PrimaryFile.loop files = none := by
  induction files with
  | nil => rfl
  | cons f fs ih =>
    have hf : f.Primary = false := h f (List.mem_cons_self _ _)
    simp only [PrimaryFile.loop, hf]
    exact ih (fun g hg => h g (List.mem_cons_of_mem _ hg))

/-- Without a primary file `DownloadModelVersion` returns its error with the trace it got. -/
theorem DownloadModelVersion_no_primary (W : World) (client : CivitaiClient) (tr : Trace)
    (version_data : CivitaiModelVersion) (directory : Str)
    (h : ∀ f ∈ version_data.Files, f.Primary = false) :
    client.DownloadModelVersion W tr version_data directory =
      (tr, some (some (version_data.Name ++ " has no primary file.".toList))) := by
  have hp : version_data.PrimaryFile = none := PrimaryFile.loop_none _ h
  simp only [CivitaiClient.DownloadModelVersion, hp]

/-- Appending to a trace extends it. -/
theorem trace_extends_append (tr s : Trace) : ∃ u, tr ++ s = tr ++ u := ⟨s, rfl⟩

/-- Extending a trace twice extends it. -/
theorem trace_extends_trans {a b c : Trace} (h1 : ∃ s, b = a ++ s) (h2 : ∃ s, c = b ++ s) :
    ∃ s, c = a ++ s := by
  obtain ⟨s1, rfl⟩ := h1
  obtain ⟨s2, rfl⟩ := h2
  exact ⟨s1 ++ s2, by simp⟩

/-- `Do` only adds to the trace. -/
theorem CivitaiClient.Do_trace (W : World) (c : CivitaiClient) (tr : Trace) (method url : Str)
    (headers : Option (List (Str × Str))) :
    ∃ s, (c.Do W tr method url headers).1 = tr ++ s := by
  unfold CivitaiClient.Do
  split
  · split
    · exact ⟨[], by simp⟩
    · exact ⟨[], by simp⟩
  · simp only
    split
    · exact ⟨_, List.append_assoc _ _ _⟩
    · split_ifs <;> exact ⟨_, List.append_assoc _ _ _⟩


/-- `GetJson` only adds to the trace. -/
theorem CivitaiClient.GetJson_trace (W : World) (c : CivitaiClient) (tr : Trace) (url : Str) :
    ∃ s, (c.GetJson W tr url).1 = tr ++ s :=
  CivitaiClient.Do_trace W c tr _ url _

/-- `GetModel` only adds to the trace. -/
theorem CivitaiClient.GetModel_trace (W : World) (c : CivitaiClient) (tr : Trace)
    (model_id : Int) : ∃ s, (c.GetModel W tr model_id).1 = tr ++ s := by
  have h := CivitaiClient.GetJson_trace W c
    (tr ++ [.debug ("Getting Model from ID: ".toList ++ fmt.d model_id)])
    (c.host ++ "/models/".toList ++ fmt.d model_id)
  have h' := trace_extends_trans (trace_extends_append tr _) h
  unfold CivitaiClient.GetModel
  simp only
  split
  all_goals (rename_i heq; rw [heq] at h'; simp only at h')
  · exact h'
  · exact h'
  · exact h'
  · split
    · exact h'
    · split <;> exact h'

/-- `GetModelVersion` only adds to the trace. -/
theorem CivitaiClient.GetModelVersion_trace (W : World) (c : CivitaiClient) (tr : Trace)
    (version_id : Int) : ∃ s, (c.GetModelVersion W tr version_id).1 = tr ++ s := by
  have h := CivitaiClient.GetJson_trace W c
    (tr ++ [.debug ("Getting Model Version from ID: ".toList ++ fmt.d version_id)])
    (c.host ++ "/model-versions/".toList ++ fmt.d version_id)
  have h' := trace_extends_trans (trace_extends_append tr _) h
  unfold CivitaiClient.GetModelVersion
  simp only
  split
  all_goals (rename_i heq; rw [heq] at h'; simp only at h')
  · exact h'
  · exact h'
  · exact h'
  · split
    · exact h'
    · split
      · exact h'
      · split <;> exact h'

/-- The write loop of `Download` only adds to the trace. -/
theorem Download.write_loop_extends (W : World) (filename : Str) (body : Body) (tr : Trace) :
    ∃ s, (Download.loop W filename body tr).1 = tr ++ s := by
  induction body generalizing tr with
  | nil => exact ⟨[], by simp [Download.loop]⟩
  | cons b bs ih =>
    obtain ⟨data, err⟩ := b
    cases err with
    | some e => exact ⟨[], by simp [Download.loop]⟩
    | none =>
      simp only [Download.loop]
      split_ifs
      · exact ⟨[], by simp⟩
      · split
        · exact ⟨_, rfl⟩
        · exact trace_extends_trans (trace_extends_append tr _) (ih _)

/-- `Download` only adds to the trace. -/
theorem CivitaiClient.Download_trace (W : World) (c : CivitaiClient) (tr : Trace)
    (url filename : Str) : ∃ s, (c.Download W tr url filename).1 = tr ++ s := by
  have h := CivitaiClient.Do_trace W c (tr ++ [.debug ("Downloading: ".toList ++ url)])
    "GET".toList url none
  have h' := trace_extends_trans (trace_extends_append tr _) h
  unfold CivitaiClient.Download CivitaiClient.Get
  simp only
  split
  all_goals (rename_i heq; rw [heq] at h'; simp only at h')
  · exact h'
  · exact h'
  · exact h'
  · split
    · exact trace_extends_trans h' (trace_extends_append _ _)
    · exact trace_extends_trans h'
        (trace_extends_trans (trace_extends_append _ _) (Download.write_loop_extends W _ _ _))

/-- The image loop of `DownloadModelVersion` only adds to the trace. -/
theorem DownloadModelVersion.images_trace (W : World) (c : CivitaiClient) (directory : Str)
    (images : List CivitaiImage) (tr : Trace) :
    ∃ s, (DownloadModelVersion.images W c directory images tr).1 = tr ++ s := by
  induction images generalizing tr with
  | nil => exact ⟨[], by simp [DownloadModelVersion.images]⟩
  | cons image images ih =>
    have h := CivitaiClient.Download_trace W c tr image.URL
      (W.Join [directory, W.Base image.URL])
    unfold DownloadModelVersion.images CivitaiClient.DownloadImage
    simp only
    split
    all_goals (rename_i heq; rw [heq] at h; simp only at h)
    · exact h
    · exact h
    · exact trace_extends_trans h (ih _)

/-- `DownloadModelVersion` only adds to the trace. -/
theorem CivitaiClient.DownloadModelVersion_trace (W : World) (c : CivitaiClient) (tr : Trace)
    (model_version : CivitaiModelVersion) (directory : Str) :
    ∃ s, (c.DownloadModelVersion W tr model_version directory).1 = tr ++ s := by
  unfold CivitaiClient.DownloadModelVersion
  split
  · exact ⟨[], by simp⟩
  · rename_i primary_file _
    have h := CivitaiClient.Download_trace W c tr primary_file.URL
      (W.Join [directory, primary_file.Name])
    unfold CivitaiClient.DownloadFile
    simp only
    split
    all_goals (rename_i heq; rw [heq] at h; simp only at h)
    · exact h
    · exact h
    · exact trace_extends_trans h
        (trace_extends_trans (trace_extends_append _ _)
          (DownloadModelVersion.images_trace W c directory _ _))

/-- One item of `download_models`: the loop first logs the resource it has received, and
only adds to the trace, given that it only adds to the trace on the remaining resources. -/
theorem download_models.loop_step (W : World) (client : CivitaiClient) (directory : Str)
    (resource : AirResource) (resources : List AirResource) (tr : Trace)
    (hrest : ∀ t : Trace,
      ∃ s, (download_models.loop W client directory resources t).trace = t ++ s) :
    ∃ s, (download_models.loop W client directory (resource :: resources) tr).trace =
      tr ++ [.info ("Resource Found: ".toList ++ fmt.v resource)] ++ s := by
  have hv := CivitaiClient.GetModelVersion_trace W client
    (tr ++ [.info ("Resource Found: ".toList ++ fmt.v resource)]) resource.version_id
  unfold download_models.loop
  simp only
  split
  all_goals (rename_i heq; rw [heq] at hv; simp only at hv)
  · exact hv
  · exact trace_extends_trans hv (trace_extends_trans (trace_extends_append _ _) (hrest _))
  · exact hv
  · rename_i tr1 version_data
    have hm := CivitaiClient.GetModel_trace W client tr1 version_data.ModelId
    split
    all_goals (rename_i heq2; rw [heq2] at hm; simp only at hm)
    · exact trace_extends_trans hv hm
    · exact trace_extends_trans hv
        (trace_extends_trans hm (trace_extends_trans (trace_extends_append _ _) (hrest _)))
    · exact trace_extends_trans hv hm
    · rename_i tr2 model_data
      have hd := CivitaiClient.DownloadModelVersion_trace W client
        (tr2 ++ [.mkdirAll (W.Join [directory,
          strings.ReplaceAll model_data.Type_ ' ' '_',
          strings.ReplaceAll model_data.Category ' ' '_',
          strings.ReplaceAll model_data.Name ' ' '_',
          strings.ReplaceAll version_data.Name ' ' '_'])]) version_data
        (W.Join [directory,
          strings.ReplaceAll model_data.Type_ ' ' '_',
          strings.ReplaceAll model_data.Category ' ' '_',
          strings.ReplaceAll model_data.Name ' ' '_',
          strings.ReplaceAll version_data.Name ' ' '_'])
      have hd' := trace_extends_trans hv
        (trace_extends_trans hm (trace_extends_trans (trace_extends_append _ _) hd))
      split
      all_goals (rename_i heq3; rw [heq3] at hd'; simp only at hd')
      · exact hd'
      · exact trace_extends_trans hd'
          (trace_extends_trans (trace_extends_append _ _) (hrest _))
      · exact trace_extends_trans hd'
          (trace_extends_trans (trace_extends_append _ _) (hrest _))

/-- The loop of `download_models` only adds to the trace. -/
theorem download_models.loop_trace (W : World) (client : CivitaiClient) (directory : Str)
    (resources : List AirResource) (tr : Trace) :
    ∃ s, (download_models.loop W client directory resources tr).trace = tr ++ s := by
  induction resources generalizing tr with
  | nil => exact ⟨[], by simp [download_models.loop]⟩
  | cons resource resources ih =>
    exact trace_extends_trans (trace_extends_append tr _)
      (download_models.loop_step W client directory resource resources tr ih)

/-- C6: for a version record none of whose files is primary (the empty list included),
`PrimaryFile` returns nil, `DownloadModelVersion` returns the error "<name> has no primary
file." with the trace unchanged, so that nothing is requested, created or written, neither
for a file nor for an image; and `download_models`, having resolved the version and the model
(which only added to the trace after its line "Resource Found"), creates the directory, logs
"Error downloading model ..." with that error and goes on: on this item alone it ends without
a panic with exactly these two effects after the metadata, on more items it runs the loop on
the remaining ones from there, and the next effect is the line "Resource Found" of the next
resource. -/
theorem download_models_no_primary_file (W : World) (client : CivitaiClient)
    (directory : Str) (resource : AirResource) (resources : List AirResource)
    (tr tr1 tr2 : Trace) (version_data : CivitaiModelVersion) (model_data : CivitaiModel)
    (hfiles : ∀ f ∈ version_data.Files, f.Primary = false)
    (hversion : client.GetModelVersion W
        (tr ++ [.info ("Resource Found: ".toList ++ fmt.v resource)]) resource.version_id =
      (tr1, some ⟨some version_data, none⟩))
    (hmodel : client.GetModel W tr1 version_data.ModelId =
      (tr2, some ⟨some model_data, none⟩)) :
    version_data.PrimaryFile = none ∧
      (∀ (t : Trace) (dir : Str), client.DownloadModelVersion W t version_data dir =
        (t, some (some (version_data.Name ++ " has no primary file.".toList)))) ∧
      download_models.loop W client directory (resource :: resources) tr =
        download_models.loop W client directory resources
          (tr2 ++ [.mkdirAll (W.Join [directory,
              strings.ReplaceAll model_data.Type_ ' ' '_',
              strings.ReplaceAll model_data.Category ' ' '_',
              strings.ReplaceAll model_data.Name ' ' '_',
              strings.ReplaceAll version_data.Name ' ' '_'])] ++
            [.error ("Error downloading model '".toList ++ version_data.Name ++
              "': ".toList ++ (version_data.Name ++ " has no primary file.".toList))]) ∧
      (∃ s, tr2 = tr ++ [.info ("Resource Found: ".toList ++ fmt.v resource)] ++ s) ∧
      download_models.loop W client directory [resource] tr =
        { trace := tr2 ++ [.mkdirAll (W.Join [directory,
              strings.ReplaceAll model_data.Type_ ' ' '_',
              strings.ReplaceAll model_data.Category ' ' '_',
              strings.ReplaceAll model_data.Name ' ' '_',
              strings.ReplaceAll version_data.Name ' ' '_'])] ++
            [.error ("Error downloading model '".toList ++ version_data.Name ++
              "': ".toList ++ (version_data.Name ++ " has no primary file.".toList))],
          panicked := false } ∧
      (∀ (next : AirResource) (rest : List AirResource),
        ∃ s, (download_models.loop W client directory (resource :: next :: rest) tr).trace =
          tr2 ++ [.mkdirAll (W.Join [directory,
              strings.ReplaceAll model_data.Type_ ' ' '_',
              strings.ReplaceAll model_data.Category ' ' '_',
              strings.ReplaceAll model_data.Name ' ' '_',
              strings.ReplaceAll version_data.Name ' ' '_'])] ++
            [.error ("Error downloading model '".toList ++ version_data.Name ++
              "': ".toList ++ (version_data.Name ++ " has no primary file.".toList))] ++
            [.info ("Resource Found: ".toList ++ fmt.v next)] ++ s) := by
  have hstep : ∀ rs : List AirResource,
      download_models.loop W client directory (resource :: rs) tr =
        download_models.loop W client directory rs
          (tr2 ++ [.mkdirAll (W.Join [directory,
              strings.ReplaceAll model_data.Type_ ' ' '_',
              strings.ReplaceAll model_data.Category ' ' '_',
              strings.ReplaceAll model_data.Name ' ' '_',
              strings.ReplaceAll version_data.Name ' ' '_'])] ++
            [.error ("Error downloading model '".toList ++ version_data.Name ++
              "': ".toList ++ (version_data.Name ++ " has no primary file.".toList))]) := by
    intro rs
    simp only [download_models.loop, hversion, hmodel,
      DownloadModelVersion_no_primary W client _ version_data _ hfiles]
  refine ⟨PrimaryFile.loop_none _ hfiles, ?_, hstep resources, ?_, ?_, ?_⟩
  · intro t dir
    exact DownloadModelVersion_no_primary W client t version_data dir hfiles
  · have hv := CivitaiClient.GetModelVersion_trace W client
      (tr ++ [.info ("Resource Found: ".toList ++ fmt.v resource)]) resource.version_id
    have hm := CivitaiClient.GetModel_trace W client tr1 version_data.ModelId
    rw [hversion] at hv
    rw [hmodel] at hm
    exact trace_extends_trans hv hm
  · rw [hstep []]
    simp only [download_models.loop]
  · intro next rest
    rw [hstep (next :: rest)]
    exact download_models.loop_step W client directory next rest _
      (download_models.loop_trace W client directory rest)

/-- The theorem of C6 on the example service: the version 5678 has no primary file; the item
alone ends with the directory and the error line and no panic, and with a second item after
it the line "Resource Found" of that item comes next. -/
theorem download_models_no_primary_file_witness :
    exampleVersion.PrimaryFile = none ∧
      (∀ (t : Trace) (dir : Str),
        (NewCivitaiClient (some "key".toList)).DownloadModelVersion
          (exampleWorld "model".toList) t exampleVersion dir =
        (t, some (some ("v1.0".toList ++ " has no primary file.".toList)))) ∧
      ∃ t : Trace,
        download_models.loop (exampleWorld "model".toList)
            (NewCivitaiClient (some "key".toList)) "/models".toList [exampleResource] [] =
          { trace := t ++ [.mkdirAll "/models/LORA/character/Some_Model/v1.0".toList] ++
              [.error "Error downloading model 'v1.0': v1.0 has no primary file.".toList],
            panicked := false } ∧
        ∃ s : Trace,
          (download_models.loop (exampleWorld "model".toList)
            (NewCivitaiClient (some "key".toList)) "/models".toList
            [exampleResource, exampleResource] []).trace =
          t ++ [.mkdirAll "/models/LORA/character/Some_Model/v1.0".toList] ++
            [.error "Error downloading model 'v1.0': v1.0 has no primary file.".toList] ++
            [.info ("Resource Found: ".toList ++ fmt.v exampleResource)] ++ s := by
  have h := download_models_no_primary_file (exampleWorld "model".toList)
    (NewCivitaiClient (some "key".toList)) "/models".toList exampleResource
    [exampleResource] [] _ _ exampleVersion
    { exampleModel with Category := "character".toList } (by decide) rfl rfl
  exact ⟨h.1, h.2.1, _, h.2.2.2.2.1, h.2.2.2.2.2 exampleResource []⟩

/-- C5: on a model endpoint that answers 200 with a body that is no model record, `GetModel`
returns neither a model nor an error (both nil), and `download_models` panics on that item: the
resource after it is never taken up. -/
theorem GetModel_undecodable_body_nil_nil :
    ((NewCivitaiClient (some "key".toList)).GetModel (exampleWorld "<html>".toList) []
        1234).2 = some ⟨none, none⟩ ∧
      (download_models (exampleWorld "<html>".toList) "key".toList "/models".toList
        [exampleResource, exampleResource]).panicked = true ∧
      ((download_models (exampleWorld "<html>".toList) "key".toList "/models".toList
        [exampleResource, exampleResource]).trace.filter
          (fun e => decide (e = .info ("Resource Found: ".toList ++
            fmt.v exampleResource)))).length = 1 :=
  ⟨rfl, rfl, by decide⟩

/-! ## The clipboard watcher -/

/-- C4: a snippet of fewer than 7 bytes makes the producer panic at `text_as_str[:7]`
instead of being skipped; the AIR that follows it on the clipboard is never sent. -/
theorem watch_clipboard_short_snippet_panics (T : CaseTable) :
    byteSliceTo "air:1".toList 7 = none ∧
      byteSliceTo [] 7 = none ∧
      watch_clipboard T ["air:1".toList, "urn:air:sd1:lora:civitai:1234@5678".toList] =
        { sent := [], trace := [.info "Starting Clipboard Watcher".toList],
          panicked := true } ∧
      watch_clipboard T ["urn:air:sd1:lora:civitai:1234@5678".toList] =
        { sent := [exampleResource], trace := [.info "Starting Clipboard Watcher".toList],
          panicked := false } :=
  ⟨rfl, rfl, rfl, rfl⟩

/-! ## The parser on examples -/

/-- C1: on the example of the specification the trailing `s` of the format is cut off by
`strings.Trim(identifier, "\\s")`: the format returned is "safetensor". -/
theorem parseAir_safetensors_format_cut (T : CaseTable) :
    parseAir T "urn:air:lora:checkpoint:civitai:1234@5678.safetensors".toList =
      .ok { ecosystem := "lora".toList, type_name := "checkpoint".toList,
            source := "civitai".toList, model_id := 1234, version_id := 5678,
            format := "safetensor".toList } :=
  rfl

/-- C3: without a known prefix the message is "invalid AIR: " with nothing after it, the
identifier is not named; and an identifier that begins with `s`, which is no known prefix, is
parsed all the same once `strings.Trim` has dropped the `s`. -/
theorem parseAir_unknown_prefix_message_empty (T : CaseTable) :
    parseAir T "hello".toList = .error "invalid AIR: ".toList ∧
      parseAir T "civitai:1234".toList = .error "invalid AIR: ".toList ∧
      parseAir T "sair:lora:checkpoint:civitai:42".toList =
        .ok { ecosystem := "lora".toList, type_name := "checkpoint".toList,
              source := "civitai".toList, model_id := 42, version_id := -1,
              format := [] } :=
  ⟨rfl, rfl, rfl⟩

/-- C10: an identifier and its lower-cased form are not parsed alike: with the format in
capitals the format is kept whole, in lower case its final `s` is trimmed; and an identifier
beginning with a capital `S` is refused while its lower-cased form is accepted. -/
theorem parseAir_lower_cased_differs (T : CaseTable) :
    parseAir T "urn:air:lora:checkpoint:civitai:1234@5678.SAFETENSORS".toList =
        .ok { ecosystem := "lora".toList, type_name := "checkpoint".toList,
              source := "civitai".toList, model_id := 1234, version_id := 5678,
              format := "safetensors".toList } ∧
      parseAir T
          (strings.ToLower T
            "urn:air:lora:checkpoint:civitai:1234@5678.SAFETENSORS".toList) =
        .ok { ecosystem := "lora".toList, type_name := "checkpoint".toList,
              source := "civitai".toList, model_id := 1234, version_id := 5678,
              format := "safetensor".toList } ∧
      parseAir T "Sair:lora:checkpoint:civitai:42".toList = .error "invalid AIR: ".toList ∧
      parseAir T (strings.ToLower T "Sair:lora:checkpoint:civitai:42".toList) =
        .ok { ecosystem := "lora".toList, type_name := "checkpoint".toList,
              source := "civitai".toList, model_id := 42, version_id := -1,
              format := [] } :=
  ⟨rfl, rfl, rfl, rfl⟩

/-! ## The model part -/

/-- With two `@` or more in `parts[0]` the second split of `parseAirModelPart` fails, naming
the whole model part. -/
theorem parseAirModelPart.version_too_many (air_model_part parts0 parts2 : Str)
    (h : 2 ≤ parts0.count '@') :
    parseAirModelPart.version air_model_part parts0 parts2 =
      .error ("invalid model id: '".toList ++ air_model_part ++
        "' too many '@' characters".toList) := by
  have hl : 3 ≤ (strings.Split parts0 '@').length := by
    rw [strings.Split_length]; omega
  obtain ⟨a, b, c, t, hs⟩ := three_le_length _ hl
  simp only [parseAirModelPart.version, hs]

/-- With two `.` or more, or with at most one `.` and two `@` or more before it,
`parseAirModelPart` fails with one of its two "too many" messages. -/
theorem parseAirModelPart_too_many (air_model_part : Str)
    (h : 2 ≤ air_model_part.count '.' ∨
      (air_model_part.count '.' ≤ 1 ∧
        2 ≤ (air_model_part.takeWhile (fun c => decide (c ≠ '.'))).count '@')) :
    parseAirModelPart air_model_part =
        .error ("invalid model id: '".toList ++ air_model_part ++
          "' too many '.' characters".toList) ∨
      parseAirModelPart air_model_part =
        .error ("invalid model id: '".toList ++ air_model_part ++
          "' too many '@' characters".toList) := by
  rcases h with h | ⟨h1, h2⟩
  · left
    have hl : 3 ≤ (strings.Split air_model_part '.').length := by
      rw [strings.Split_length]; omega
    obtain ⟨a, b, c, t, hs⟩ := three_le_length _ hl
    simp only [parseAirModelPart, hs]
  · right
    have hlen := strings.Split_length air_model_part '.'
    have hhead := strings.Split_head air_model_part '.'
    match hs : strings.Split air_model_part '.' with
    | [] => exact absurd hs (strings.Split_ne_nil _ _)
    | [e0] =>
      rw [hs] at hlen
      have hcount : air_model_part.count '.' = 0 := by simpa using hlen.symm
      have hnot : '.' ∉ air_model_part := List.count_eq_zero.1 hcount
      have htake : air_model_part.takeWhile (fun c => decide (c ≠ '.')) = air_model_part := by
        rw [List.takeWhile_eq_self_iff]
        intro c hc
        have : c ≠ '.' := fun e => hnot (e ▸ hc)
        simpa using this
      rw [htake] at h2
      simp only [parseAirModelPart, hs]
      exact parseAirModelPart.version_too_many _ _ _ h2
    | [e0, e1] =>
      rw [hs] at hhead
      simp only [List.head?_cons, Option.some.injEq] at hhead
      rw [← hhead] at h2
      simp only [parseAirModelPart, hs]
      exact parseAirModelPart.version_too_many _ _ _ h2
    | _ :: _ :: _ :: _ =>
      rw [hs] at hlen
      simp only [List.length_cons] at hlen
      omega

/-! ## The prefixes -/

/-- Behind the prefix `air:` only the end of an identifier is trimmed. -/
theorem strings.Trim_air (r : Str) :
    strings.Trim ("air:".toList ++ r) "\\s".toList =
      "air:".toList ++ strings.TrimRight r "\\s".toList := by
  have hl : strings.TrimLeft ("air:".toList ++ r) "\\s".toList = "air:".toList ++ r :=
    strings.TrimLeft_cons 'a' _ _ (by decide)
  have hr := strings.TrimRight_append "air".toList ':' r "\\s".toList (by decide)
  unfold strings.Trim
  rw [hl]
  exact hr

/-- Behind the prefix `urn:air:` only the end of an identifier is trimmed. -/
theorem strings.Trim_urn_air (r : Str) :
    strings.Trim ("urn:air:".toList ++ r) "\\s".toList =
      "urn:air:".toList ++ strings.TrimRight r "\\s".toList := by
  have hl : strings.TrimLeft ("urn:air:".toList ++ r) "\\s".toList =
      "urn:air:".toList ++ r :=
    strings.TrimLeft_cons 'u' _ _ (by decide)
  have hr := strings.TrimRight_append "urn:air".toList ':' r "\\s".toList (by decide)
  unfold strings.Trim
  rw [hl]
  exact hr

/-- After the prefix `air:` the variable `uri` holds the rest of the string. -/
theorem parseAir.uri_air (x : Str) : parseAir.uri ("air:".toList ++ x) = some x := by
  simp [parseAir.uri, strings.HasPrefix]

/-- After the prefix `urn:air:` the variable `uri` holds the rest of the string. -/
theorem parseAir.uri_urn_air (x : Str) : parseAir.uri ("urn:air:".toList ++ x) = some x := by
  simp [parseAir.uri, strings.HasPrefix]

/-- C8: for every string `r`, `parseAir` gives the same outcome, error or resource, on
`"air:" ++ r` and on `"urn:air:" ++ r`; on "air:lora:checkpoint:civitai:42" and on
"urn:air:lora:checkpoint:civitai:42" it gives model id 42 and version id -1. -/
theorem parseAir_air_eq_urn_air (T : CaseTable) (r : Str) :
    parseAir T ("air:".toList ++ r) = parseAir T ("urn:air:".toList ++ r) ∧
      parseAir T "air:lora:checkpoint:civitai:42".toList =
        .ok { ecosystem := "lora".toList, type_name := "checkpoint".toList,
              source := "civitai".toList, model_id := 42, version_id := -1,
              format := [] } ∧
      parseAir T "urn:air:lora:checkpoint:civitai:42".toList =
        .ok { ecosystem := "lora".toList, type_name := "checkpoint".toList,
              source := "civitai".toList, model_id := 42, version_id := -1,
              format := [] } := by
  refine ⟨?_, rfl, rfl⟩
  have m1 : List.map (unicode.ToLower T) "air:".toList = "air:".toList := rfl
  have m2 : List.map (unicode.ToLower T) "urn:air:".toList = "urn:air:".toList := rfl
  simp only [parseAir, strings.Trim_air, strings.Trim_urn_air, strings.ToLower_eq_map,
    List.map_append, m1, m2, parseAir.uri_air, parseAir.uri_urn_air]

/-! ## Identifiers without version and format -/

/-- Reading further digits never lowers the value read so far. -/
theorem foldl_digits_ge (cs : Str) (n : Nat) :
    n ≤ cs.foldl (fun n c => n * 10 + (c.toNat - '0'.toNat)) n := by
  induction cs generalizing n with
  | nil => simp
  | cons c cs ih =>
    simp only [List.foldl]
    exact Nat.le_trans (by omega) (ih _)

/-- On decimal digits whose value fits 64 bits the digit loop returns that value. -/
theorem strconv.parseUintLoop_digits (cs : Str) (n : Nat)
    (hd : ∀ c ∈ cs, '0'.toNat ≤ c.toNat ∧ c.toNat ≤ '9'.toNat)
    (hr : cs.foldl (fun n c => n * 10 + (c.toNat - '0'.toNat)) n ≤ 2 ^ 64 - 1) :
    strconv.parseUintLoop cs n =
      .ok (cs.foldl (fun n c => n * 10 + (c.toNat - '0'.toNat)) n) := by
  induction cs generalizing n with
  | nil => rfl
  | cons c cs ih =>
    have hc := hd c (List.mem_cons_self _ _)
    have hdig : strconv.digit c = some (c.toNat - '0'.toNat) := by
      unfold strconv.digit
      rw [if_pos hc]
    simp only [List.foldl] at hr ⊢
    have hge := foldl_digits_ge cs (n * 10 + (c.toNat - '0'.toNat))
    have h1 : ¬ ((2 ^ 64 - 1) / 10 + 1 ≤ n) := by
      norm_num at hr hge ⊢
      omega
    have h2 : ¬ (2 ^ 64 - 1 < n * 10 + (c.toNat - '0'.toNat)) := by
      norm_num at hr hge ⊢
      omega
    simp only [strconv.parseUintLoop, hdig, h1, h2, if_false]
    exact ih _ (fun c h => hd c (List.mem_cons_of_mem _ h)) hr

/-- `strconv.Atoi` on a non-empty string of decimal digits whose value fits an `int`. -/
theorem strconv.Atoi_digits (M : Str) (hM : M ≠ [])
    (hd : ∀ c ∈ M, '0'.toNat ≤ c.toNat ∧ c.toNat ≤ '9'.toNat)
    (hr : decimalValue M < 2 ^ 63) :
    strconv.Atoi M = .ok (decimalValue M : Int) := by
  cases M with
  | nil => exact absurd rfl hM
  | cons c cs =>
    have hc := hd c (List.mem_cons_self _ _)
    have h0 : '0'.toNat = 48 := rfl
    have h9 : '9'.toNat = 57 := rfl
    have hplus : c ≠ '+' := by
      intro e; subst e
      have : '+'.toNat = 43 := rfl
      omega
    have hminus : c ≠ '-' := by
      intro e; subst e
      have : '-'.toNat = 45 := rfl
      omega
    have hr64 : (c :: cs).foldl (fun n c => n * 10 + (c.toNat - '0'.toNat)) 0 ≤ 2 ^ 64 - 1 := by
      have : decimalValue (c :: cs) < 2 ^ 63 := hr
      unfold decimalValue at this
      norm_num at this ⊢
      omega
    have hloop := strconv.parseUintLoop_digits (c :: cs) 0 hd hr64
    have hlt : ¬ (2 ^ (strconv.intSize - 1) ≤ decimalValue (c :: cs)) := by
      simp only [strconv.intSize]
      norm_num at hr ⊢
      omega
    simp only [strconv.Atoi, hplus, hminus, or_self, if_false, strconv.ParseUint, hloop,
      decide_False, Bool.not_false, true_and, false_and, Bool.false_eq_true]
    simp only [decimalValue] at hlt ⊢
    simp at hlt ⊢
    exact hlt

/-- Lower-casing an ASCII capital never gives a colon. -/
theorem unicode.capital_ne_colon (k : Nat) (h1 : 65 ≤ k) (h2 : k ≤ 90) :
    Char.ofNat (k + 32) ≠ ':' := by
  interval_cases k <;> decide

/-- Only the colon lower-cases to a colon. -/
theorem unicode.ToLower_eq_colon (T : CaseTable) (c : Char)
    (h : unicode.ToLower T c = ':') : c = ':' := by
  unfold unicode.ToLower at h
  split_ifs at h with ha
  · unfold unicode.asciiLower at h
    split_ifs at h with hu
    · exact absurd h (unicode.capital_ne_colon _ hu.1 hu.2)
    · exact h
  · have hna : 0x7F < c.toNat := Nat.lt_of_not_le ha
    have hcolon : (T.lower c).toNat = 58 := by rw [h]; rfl
    have := T.lower_ascii c hna (by omega)
    have ha' : 'a'.toNat = 97 := rfl
    omega

/-- Lower-casing a string without a colon gives a string without a colon. -/
theorem strings.colon_not_mem_map (T : CaseTable) (s : Str) (h : ':' ∉ s) :
    ':' ∉ s.map (unicode.ToLower T) := by
  intro hm
  obtain ⟨c, hc, hcc⟩ := List.mem_map.1 hm
  exact h (unicode.ToLower_eq_colon T c hcc ▸ hc)

/-- Decimal digits have no case. -/
theorem unicode.ToLower_digit (T : CaseTable) (c : Char)
    (h : '0'.toNat ≤ c.toNat ∧ c.toNat ≤ '9'.toNat) : unicode.ToLower T c = c := by
  have h9 : '9'.toNat = 57 := rfl
  have hA : 'A'.toNat = 65 := rfl
  have ha : c.toNat ≤ unicode.MaxASCII := by
    simp only [unicode.MaxASCII]; omega
  have hu : ¬ ('A'.toNat ≤ c.toNat ∧ c.toNat ≤ 'Z'.toNat) := by omega
  simp only [unicode.ToLower, ha, if_true, unicode.asciiLower, hu, if_false]

/-- A string of decimal digits is its own lower-cased form. -/
theorem strings.map_ToLower_digits (T : CaseTable) (M : Str)
    (hd : ∀ c ∈ M, '0'.toNat ≤ c.toNat ∧ c.toNat ≤ '9'.toNat) :
    M.map (unicode.ToLower T) = M := by
  have : M.map (unicode.ToLower T) = M.map id :=
    List.map_congr_left (fun c hc => unicode.ToLower_digit T c (hd c hc))
  simpa using this

/-- A character that is no decimal digit is not in a string of decimal digits. -/
theorem not_mem_digits (M : Str) (x : Char)
    (hd : ∀ c ∈ M, '0'.toNat ≤ c.toNat ∧ c.toNat ≤ '9'.toNat)
    (hx : ¬ ('0'.toNat ≤ x.toNat ∧ x.toNat ≤ '9'.toNat)) : x ∉ M :=
  fun hm => hx (hd x hm)

/-- `strings.Trim` with the cutset of `parseAir` leaves alone an identifier that begins with
`urn:air:` and ends with a decimal digit. -/
theorem strings.Trim_urn_air_digits (body M : Str) (hM : M ≠ [])
    (hd : ∀ c ∈ M, '0'.toNat ≤ c.toNat ∧ c.toNat ≤ '9'.toNat) :
    strings.Trim ("urn:air:".toList ++ (body ++ M)) "\\s".toList =
      "urn:air:".toList ++ (body ++ M) := by
  have hl : strings.TrimLeft ("urn:air:".toList ++ (body ++ M)) "\\s".toList =
      "urn:air:".toList ++ (body ++ M) :=
    strings.TrimLeft_cons 'u' _ _ (by decide)
  obtain ⟨M', d, rfl⟩ : ∃ M' d, M = M' ++ [d] :=
    ⟨M.dropLast, M.getLast hM, (List.dropLast_append_getLast hM).symm⟩
  have hdd := hd d (by simp)
  have hnot : d ∉ "\\s".toList := by
    intro hm
    have h0 : '0'.toNat = 48 := rfl
    have h9 : '9'.toNat = 57 := rfl
    have hb : '\\'.toNat = 92 := rfl
    have hs : 's'.toNat = 115 := rfl
    have hcases : d = '\\' ∨ d = 's' := by simpa using hm
    rcases hcases with e | e <;> subst e <;> omega
  have hr := strings.TrimRight_append ("urn:air:".toList ++ (body ++ M')) d [] "\\s".toList hnot
  have hnil : strings.TrimRight [] "\\s".toList = [] := rfl
  rw [hnil] at hr
  unfold strings.Trim
  rw [hl]
  simpa using hr

/-- The model part of an identifier without version and format: decimal digits whose value
fits an `int` give that value, the version sentinel -1 and the empty format. -/
theorem parseAirModelPart_digits (M : Str) (hM : M ≠ [])
    (hd : ∀ c ∈ M, '0'.toNat ≤ c.toNat ∧ c.toNat ≤ '9'.toNat)
    (hr : decimalValue M < 2 ^ 63) :
    parseAirModelPart M = .ok ((decimalValue M : Int), -1, []) := by
  have h0 : '0'.toNat = 48 := rfl
  have h9 : '9'.toNat = 57 := rfl
  have hdot : '.' ∉ M := not_mem_digits M '.' hd (by
    have : '.'.toNat = 46 := rfl
    omega)
  have hat : '@' ∉ M := not_mem_digits M '@' hd (by
    have : '@'.toNat = 64 := rfl
    omega)
  have hminus : strconv.Atoi "-1".toList = .ok (-1) := by decide
  simp only [parseAirModelPart, strings.Split_of_not_mem M '.' hdot, parseAirModelPart.version,
    strings.Split_of_not_mem M '@' hat, parseAirModelPart.convert,
    strconv.Atoi_digits M hM hd hr, hminus]

/-- C2, as `parseAir` has it: for `E`, `T`, `S` without a colon and `M` a non-empty string of
decimal digits whose value fits an `int` (below `2^63`), `parseAir` succeeds on
`"urn:air:E:T:S:M"` with the lower-cased `E`, `T` and `S` as ecosystem, type name and source,
the value of `M` as model id, the sentinel -1 as version id and the empty format. -/
theorem parseAir_without_version_and_format (T : CaseTable) (E Ty S M : Str)
    (hE : ':' ∉ E) (hT : ':' ∉ Ty) (hS : ':' ∉ S) (hM : M ≠ [])
    (hd : ∀ c ∈ M, '0'.toNat ≤ c.toNat ∧ c.toNat ≤ '9'.toNat)
    (hr : decimalValue M < 2 ^ 63) :
    parseAir T ("urn:air:".toList ++ E ++ ":".toList ++ Ty ++ ":".toList ++ S ++
        ":".toList ++ M) =
      .ok { ecosystem := strings.ToLower T E, type_name := strings.ToLower T Ty,
            source := strings.ToLower T S, model_id := (decimalValue M : Int),
            version_id := -1, format := [] } := by
  have hcolon : ":".toList = [':'] := rfl
  have hshape : "urn:air:".toList ++ E ++ ":".toList ++ Ty ++ ":".toList ++ S ++
        ":".toList ++ M =
      "urn:air:".toList ++ ((E ++ ':' :: (Ty ++ ':' :: (S ++ [':']))) ++ M) := by
    simp [hcolon]
  have m1 : List.map (unicode.ToLower T) "urn:air:".toList = "urn:air:".toList := rfl
  have m2 : unicode.ToLower T ':' = ':' := rfl
  have hnd : ':' ∉ M := not_mem_digits M ':' hd (by
    have h9 : '9'.toNat = 57 := rfl
    have : ':'.toNat = 58 := rfl
    omega)
  have hsplit : strings.Split
      (List.map (unicode.ToLower T) E ++ ':' :: (List.map (unicode.ToLower T) Ty ++
        ':' :: (List.map (unicode.ToLower T) S ++ ':' :: M))) ':' =
      [List.map (unicode.ToLower T) E, List.map (unicode.ToLower T) Ty,
        List.map (unicode.ToLower T) S, M] := by
    rw [strings.Split_append _ _ _ (strings.colon_not_mem_map T E hE),
      strings.Split_append _ _ _ (strings.colon_not_mem_map T Ty hT),
      strings.Split_append _ _ _ (strings.colon_not_mem_map T S hS),
      strings.Split_of_not_mem M ':' hnd]
  rw [hshape]
  simp only [parseAir, strings.Trim_urn_air_digits _ M hM hd]
  simp only [strings.ToLower_eq_map,
    List.map_append, List.map_cons, List.map_nil, m1, m2, strings.map_ToLower_digits T M hd,
    parseAir.uri_urn_air, List.append_assoc, List.cons_append, List.nil_append, hsplit,
    parseAirModelPart_digits M hM hd hr]

/-- The theorem of C2 on "urn:air:LoRA:Checkpoint:civitai:1234". -/
theorem parseAir_without_version_and_format_witness :
    parseAir CaseTable.asciiOnly "urn:air:LoRA:Checkpoint:civitai:1234".toList =
      .ok { ecosystem := "lora".toList, type_name := "checkpoint".toList,
            source := "civitai".toList, model_id := 1234, version_id := -1,
            format := [] } :=
  parseAir_without_version_and_format CaseTable.asciiOnly "LoRA".toList "Checkpoint".toList
    "civitai".toList "1234".toList (by decide) (by decide) (by decide) (by decide)
    (by decide) (by decide)

/-- C2 as stated fails: an ecosystem in capitals is not returned as written, whatever the
case table, and a model id of decimal digits beyond the range of `int` is refused. -/
theorem parseAir_without_version_and_format_counterexample :
    (¬ ∃ T : CaseTable, parseAir T "urn:air:LoRA:checkpoint:civitai:42".toList =
        .ok { ecosystem := "LoRA".toList, type_name := "checkpoint".toList,
              source := "civitai".toList, model_id := 42, version_id := -1,
              format := [] }) ∧
      (¬ ∃ (T : CaseTable) (resource : AirResource),
        parseAir T "urn:air:lora:checkpoint:civitai:9223372036854775808".toList =
          .ok resource) := by
  constructor
  · rintro ⟨T, h⟩
    have e : parseAir T "urn:air:LoRA:checkpoint:civitai:42".toList =
        .ok { ecosystem := "lora".toList, type_name := "checkpoint".toList,
              source := "civitai".toList, model_id := 42, version_id := -1,
              format := [] } := rfl
    rw [e] at h
    exact absurd h (by decide)
  · rintro ⟨T, resource, h⟩
    have e : parseAir T "urn:air:lora:checkpoint:civitai:9223372036854775808".toList =
        .error "unable to parse model id: '9223372036854775808' to integer".toList := rfl
    rw [e] at h
    exact Except.noConfusion h

/-! ## The model part inside an identifier -/

/-- Lower-casing an ASCII capital never gives one of the separators `.`, `@`, `:`. -/
theorem unicode.capital_ne_sep (k : Nat) (h1 : 65 ≤ k) (h2 : k ≤ 90) (d : Char)
    (hd : d = '.' ∨ d = '@' ∨ d = ':') : Char.ofNat (k + 32) ≠ d := by
  rcases hd with rfl | rfl | rfl <;> interval_cases k <;> decide

/-- Only a separator lower-cases to that separator. -/
theorem unicode.ToLower_eq_sep (T : CaseTable) (c d : Char)
    (hd : d = '.' ∨ d = '@' ∨ d = ':') (h : unicode.ToLower T c = d) : c = d := by
  unfold unicode.ToLower at h
  split_ifs at h with ha
  · unfold unicode.asciiLower at h
    split_ifs at h with hu
    · exact absurd h (unicode.capital_ne_sep _ hu.1 hu.2 d hd)
    · exact h
  · have hna : 0x7F < c.toNat := Nat.lt_of_not_le ha
    have hle : d.toNat ≤ 64 := by
      rcases hd with rfl | rfl | rfl <;> decide
    have hdn : (T.lower c).toNat = d.toNat := by rw [h]
    have := T.lower_ascii c hna (by omega)
    have ha' : 'a'.toNat = 97 := rfl
    omega

/-- A separator has no case. -/
theorem unicode.ToLower_sep (T : CaseTable) (d : Char) (hd : d = '.' ∨ d = '@' ∨ d = ':') :
    unicode.ToLower T d = d := by
  rcases hd with rfl | rfl | rfl <;> rfl

/-- Lower-casing keeps the number of occurrences of a separator. -/
theorem strings.count_map_ToLower (T : CaseTable) (s : Str) (d : Char)
    (hd : d = '.' ∨ d = '@' ∨ d = ':') :
    (s.map (unicode.ToLower T)).count d = s.count d := by
  induction s with
  | nil => rfl
  | cons c cs ih =>
    rw [List.map_cons, List.count_cons, List.count_cons, ih]
    by_cases hc : c = d
    · subst hc
      simp [unicode.ToLower_sep T c hd]
    · have hc' : unicode.ToLower T c ≠ d := fun e => hc (unicode.ToLower_eq_sep T c d hd e)
      simp [hc, hc']

/-- Lower-casing commutes with taking what is before the first separator. -/
theorem strings.takeWhile_map_ToLower (T : CaseTable) (s : Str) (d : Char)
    (hd : d = '.' ∨ d = '@' ∨ d = ':') :
    (s.map (unicode.ToLower T)).takeWhile (fun c => decide (c ≠ d)) =
      (s.takeWhile (fun c => decide (c ≠ d))).map (unicode.ToLower T) := by
  induction s with
  | nil => rfl
  | cons c cs ih =>
    by_cases hc : c = d
    · subst hc
      simp [List.takeWhile, unicode.ToLower_sep T c hd]
    · have hc' : unicode.ToLower T c ≠ d := fun e => hc (unicode.ToLower_eq_sep T c d hd e)
      simp only [decide_not] at ih
      simp [List.takeWhile, hc, hc', ih]

/-- Lower-casing a string without a colon gives a string without a colon (as a separator). -/
theorem strings.sep_not_mem_map (T : CaseTable) (s : Str) (d : Char)
    (hd : d = '.' ∨ d = '@' ∨ d = ':') (h : d ∉ s) : d ∉ s.map (unicode.ToLower T) := by
  intro hm
  obtain ⟨c, hc, hcc⟩ := List.mem_map.1 hm
  exact h (unicode.ToLower_eq_sep T c d hd hcc ▸ hc)

/-- `strings.Trim` leaves alone a string that begins and ends outside the cutset. -/
theorem strings.Trim_keep (a : Char) (mid : Str) (x : Char) (cutset : Str)
    (ha : a ∉ cutset) (hx : x ∉ cutset) :
    strings.Trim (a :: (mid ++ [x])) cutset = a :: (mid ++ [x]) := by
  have hr := strings.TrimRight_append (a :: mid) x [] cutset hx
  have hnil : strings.TrimRight [] cutset = [] := rfl
  rw [hnil] at hr
  unfold strings.Trim
  rw [strings.TrimLeft_cons a _ cutset ha]
  simpa using hr

/-- After the prefix `urn:` that is not followed by `air:`, `uri` is the rest of the string. -/
theorem parseAir.uri_urn (x : Str) (h : strings.HasPrefix x "air:".toList = false) :
    parseAir.uri ("urn:".toList ++ x) = some x := by
  have h' : ¬ ("air:".toList <+: x) := by
    intro hp
    have : strings.HasPrefix x "air:".toList = true := by
      unfold strings.HasPrefix
      exact List.isPrefixOf_iff_prefix.2 hp
    rw [h] at this
    exact Bool.false_ne_true this
  have h'' : ¬ (['a', 'i', 'r', ':'] <+: x) := h'
  simp [parseAir.uri, strings.HasPrefix, h'']

/-- A first field other than "air" does not make the string begin with `air:`. -/
theorem strings.HasPrefix_air_false (E rest : Str) (hE : ':' ∉ E) (hne : E ≠ "air".toList) :
    strings.HasPrefix (E ++ ':' :: rest) "air:".toList = false := by
  cases hb : strings.HasPrefix (E ++ ':' :: rest) "air:".toList with
  | false => rfl
  | true =>
    exfalso
    unfold strings.HasPrefix at hb
    obtain ⟨t, ht⟩ := List.isPrefixOf_iff_prefix.1 hb
    have h1 := strings.Split_append E rest ':' hE
    have h2 := strings.Split_append "air".toList t ':' (by decide)
    have e : "air:".toList ++ t = "air".toList ++ ':' :: t := rfl
    rw [← ht, e, h2] at h1
    exact hne (List.cons.inj h1).1.symm

/-- `parseAir` on an identifier of four fields behind a prefix `a :: rest` that `strings.Trim`
and `strings.ToLower` leave alone and after which `uri` is what follows: the fields are the
lower-cased ones, and the outcome is that of `parseAirModelPart` on the lower-cased model part,
provided the model part does not end inside the cutset of `strings.Trim`. -/
theorem parseAir_fields_core (T : CaseTable) (a : Char) (rest E Ty S body : Str) (x : Char)
    (ha : a ∉ "\\s".toList) (hx : x ∉ "\\s".toList)
    (hmap : List.map (unicode.ToLower T) (a :: rest) = a :: rest)
    (huri : parseAir.uri ((a :: rest) ++ (List.map (unicode.ToLower T) E ++
        ':' :: (List.map (unicode.ToLower T) Ty ++ ':' :: (List.map (unicode.ToLower T) S ++
          ':' :: List.map (unicode.ToLower T) (body ++ [x]))))) =
      some (List.map (unicode.ToLower T) E ++
        ':' :: (List.map (unicode.ToLower T) Ty ++ ':' :: (List.map (unicode.ToLower T) S ++
          ':' :: List.map (unicode.ToLower T) (body ++ [x])))))
    (hE : ':' ∉ E) (hT : ':' ∉ Ty) (hS : ':' ∉ S) (hp : ':' ∉ body ++ [x]) :
    parseAir T ((a :: rest) ++ E ++ ":".toList ++ Ty ++ ":".toList ++ S ++ ":".toList ++
        (body ++ [x])) =
      match parseAirModelPart (strings.ToLower T (body ++ [x])) with
      | .error err => .error err
      | .ok (model_id, version_id, format) =>
        .ok { ecosystem := strings.ToLower T E, type_name := strings.ToLower T Ty,
              source := strings.ToLower T S, model_id := model_id,
              version_id := version_id, format := format } := by
  have hcolon : ":".toList = [':'] := rfl
  have hsep : (':' : Char) = '.' ∨ (':' : Char) = '@' ∨ (':' : Char) = ':' :=
    Or.inr (Or.inr rfl)
  have hshape : (a :: rest) ++ E ++ ":".toList ++ Ty ++ ":".toList ++ S ++ ":".toList ++
        (body ++ [x]) =
      a :: ((rest ++ (E ++ ':' :: (Ty ++ ':' :: (S ++ ':' :: body)))) ++ [x]) := by
    simp [hcolon]
  have hfa : unicode.ToLower T a = a := (List.cons.inj hmap).1
  have hfrest : List.map (unicode.ToLower T) rest = rest := (List.cons.inj hmap).2
  have m2 : unicode.ToLower T ':' = ':' := rfl
  have hlow : List.map (unicode.ToLower T)
        (a :: ((rest ++ (E ++ ':' :: (Ty ++ ':' :: (S ++ ':' :: body)))) ++ [x])) =
      (a :: rest) ++ (List.map (unicode.ToLower T) E ++
        ':' :: (List.map (unicode.ToLower T) Ty ++ ':' :: (List.map (unicode.ToLower T) S ++
          ':' :: List.map (unicode.ToLower T) (body ++ [x])))) := by
    simp [hfa, hfrest, m2]
  have hsplit : strings.Split
      (List.map (unicode.ToLower T) E ++ ':' :: (List.map (unicode.ToLower T) Ty ++
        ':' :: (List.map (unicode.ToLower T) S ++
          ':' :: List.map (unicode.ToLower T) (body ++ [x])))) ':' =
      [List.map (unicode.ToLower T) E, List.map (unicode.ToLower T) Ty,
        List.map (unicode.ToLower T) S, List.map (unicode.ToLower T) (body ++ [x])] := by
    rw [strings.Split_append _ _ _ (strings.sep_not_mem_map T E ':' hsep hE),
      strings.Split_append _ _ _ (strings.sep_not_mem_map T Ty ':' hsep hT),
      strings.Split_append _ _ _ (strings.sep_not_mem_map T S ':' hsep hS),
      strings.Split_of_not_mem _ ':' (strings.sep_not_mem_map T _ ':' hsep hp)]
  rw [hshape]
  simp only [parseAir, strings.Trim_keep a _ x _ ha hx]
  simp only [strings.ToLower_eq_map, hlow, huri, hsplit]

/-- `parseAir` on an identifier of four colon-free fields behind one of the three prefixes
(`urn:` being followed by an ecosystem other than "air"), the model part not ending inside the
cutset of `strings.Trim`: the outcome is that of `parseAirModelPart` on the lower-cased model
part. -/
theorem parseAir_fields (T : CaseTable) (pre E Ty S body : Str) (x : Char)
    (hpre : pre = "urn:air:".toList ∨ pre = "air:".toList ∨
      (pre = "urn:".toList ∧ strings.ToLower T E ≠ "air".toList))
    (hx : x ∉ "\\s".toList)
    (hE : ':' ∉ E) (hT : ':' ∉ Ty) (hS : ':' ∉ S) (hp : ':' ∉ body ++ [x]) :
    parseAir T (pre ++ E ++ ":".toList ++ Ty ++ ":".toList ++ S ++ ":".toList ++
        (body ++ [x])) =
      match parseAirModelPart (strings.ToLower T (body ++ [x])) with
      | .error err => .error err
      | .ok (model_id, version_id, format) =>
        .ok { ecosystem := strings.ToLower T E, type_name := strings.ToLower T Ty,
              source := strings.ToLower T S, model_id := model_id,
              version_id := version_id, format := format } := by
  have hsep : (':' : Char) = '.' ∨ (':' : Char) = '@' ∨ (':' : Char) = ':' :=
    Or.inr (Or.inr rfl)
  rcases hpre with rfl | rfl | ⟨rfl, hne⟩
  · exact parseAir_fields_core T 'u' "rn:air:".toList E Ty S body x (by decide) hx rfl
      (parseAir.uri_urn_air _) hE hT hS hp
  · exact parseAir_fields_core T 'a' "ir:".toList E Ty S body x (by decide) hx rfl
      (parseAir.uri_air _) hE hT hS hp
  · rw [strings.ToLower_eq_map] at hne
    exact parseAir_fields_core T 'u' "rn:".toList E Ty S body x (by decide) hx rfl
      (parseAir.uri_urn _ (strings.HasPrefix_air_false _ _
        (strings.sep_not_mem_map T E ':' hsep hE) hne)) hE hT hS hp

/-- C9, as the code has it: a model part with more than one `.`, or with at most one `.` and
more than one `@` before it, is refused by `parseAirModelPart` with a message that contains the
model part, whatever else the part holds; and `parseAir`, on an identifier made of one of the
three prefixes (`urn:` being followed by an ecosystem other than "air") and four colon-free
fields of which that model part is the last and does not end in `s` or a backslash, fails with
a message that contains the lower-cased model part.  The parts "1234.5678.9" and "1234@5@6" are
refused in this way. -/
theorem parseAirModelPart_rejects_repeated_separator (air_model_part : Str)
    (h : 2 ≤ air_model_part.count '.' ∨
      (air_model_part.count '.' ≤ 1 ∧
        2 ≤ (air_model_part.takeWhile (fun c => decide (c ≠ '.'))).count '@')) :
    (∃ msg : Str, parseAirModelPart air_model_part = .error msg ∧
      ∃ before after : Str, msg = before ++ air_model_part ++ after) ∧
      (∀ (T : CaseTable) (pre E Ty S : Str),
        (pre = "urn:air:".toList ∨ pre = "air:".toList ∨
          (pre = "urn:".toList ∧ strings.ToLower T E ≠ "air".toList)) →
        ':' ∉ E → ':' ∉ Ty → ':' ∉ S → ':' ∉ air_model_part →
        (∀ x : Char, air_model_part.getLast? = some x → x ∉ "\\s".toList) →
        ∃ msg : Str,
          parseAir T (pre ++ E ++ ":".toList ++ Ty ++ ":".toList ++ S ++ ":".toList ++
            air_model_part) = .error msg ∧
          ∃ before after : Str, msg = before ++ strings.ToLower T air_model_part ++ after) ∧
      (∀ T : CaseTable,
        parseAir T "urn:air:lora:checkpoint:civitai:1234.5678.9".toList =
          .error "invalid model id: '1234.5678.9' too many '.' characters".toList) ∧
      (∀ T : CaseTable,
        parseAir T "urn:air:lora:checkpoint:civitai:1234@5@6".toList =
          .error "invalid model id: '1234@5@6' too many '@' characters".toList) := by
  refine ⟨?_, ?_, fun _ => rfl, fun _ => rfl⟩
  · rcases parseAirModelPart_too_many air_model_part h with hm | hm
    · exact ⟨_, hm, _, _, rfl⟩
    · exact ⟨_, hm, _, _, rfl⟩
  · intro T pre E Ty S hpre hE hT hS hp hlast
    have hne : air_model_part ≠ [] := by
      rintro rfl
      simp at h
    obtain ⟨body, x, rfl⟩ : ∃ body x, air_model_part = body ++ [x] :=
      ⟨air_model_part.dropLast, air_model_part.getLast hne,
        (List.dropLast_append_getLast hne).symm⟩
    have hx : x ∉ "\\s".toList := hlast x (by simp)
    have hdot : ('.' : Char) = '.' ∨ ('.' : Char) = '@' ∨ ('.' : Char) = ':' := Or.inl rfl
    have hat : ('@' : Char) = '.' ∨ ('@' : Char) = '@' ∨ ('@' : Char) = ':' :=
      Or.inr (Or.inl rfl)
    have h' : 2 ≤ (strings.ToLower T (body ++ [x])).count '.' ∨
        ((strings.ToLower T (body ++ [x])).count '.' ≤ 1 ∧
          2 ≤ ((strings.ToLower T (body ++ [x])).takeWhile
            (fun c => decide (c ≠ '.'))).count '@') := by
      rw [strings.ToLower_eq_map, strings.count_map_ToLower T _ '.' hdot,
        strings.takeWhile_map_ToLower T _ '.' hdot, strings.count_map_ToLower T _ '@' hat]
      exact h
    rw [parseAir_fields T pre E Ty S body x hpre hx hE hT hS hp]
    rcases parseAirModelPart_too_many _ h' with hm | hm
    · rw [hm]
      exact ⟨_, rfl, _, _, rfl⟩
    · rw [hm]
      exact ⟨_, rfl, _, _, rfl⟩

/-- The theorem of C9 on the model part "1@2@3.PT" behind `urn:air:lora:checkpoint:civitai:`. -/
theorem parseAirModelPart_rejects_repeated_separator_witness :
    (∃ msg : Str, parseAirModelPart "1@2@3.PT".toList = .error msg ∧
      ∃ before after : Str, msg = before ++ "1@2@3.PT".toList ++ after) ∧
      ∃ msg : Str,
        parseAir CaseTable.asciiOnly
          ("urn:air:".toList ++ "lora".toList ++ ":".toList ++ "checkpoint".toList ++
            ":".toList ++ "civitai".toList ++ ":".toList ++ "1@2@3.PT".toList) =
          .error msg ∧
        ∃ before after : Str,
          msg = before ++ strings.ToLower CaseTable.asciiOnly "1@2@3.PT".toList ++ after :=
  have h := parseAirModelPart_rejects_repeated_separator "1@2@3.PT".toList
    (Or.inr (by decide))
  ⟨h.1, h.2.1 CaseTable.asciiOnly "urn:air:".toList "lora".toList "checkpoint".toList
    "civitai".toList (Or.inl rfl) (by decide) (by decide) (by decide) (by decide)
    (by decide)⟩

/-- C9 as stated fails: the model part "1@2@3.PT" has one `.` and two `@` before it, and the
message of `parseAir` on "urn:air:lora:checkpoint:civitai:1@2@3.PT" does not contain it,
whatever the case table: the message names the lower-cased part. -/
theorem parseAirModelPart_rejects_repeated_separator_counterexample :
    ("1@2@3.PT".toList.count '.' ≤ 1 ∧
        2 ≤ ("1@2@3.PT".toList.takeWhile (fun c => decide (c ≠ '.'))).count '@') ∧
      ¬ ∃ (T : CaseTable) (msg before after : Str),
        parseAir T "urn:air:lora:checkpoint:civitai:1@2@3.PT".toList = .error msg ∧
          msg = before ++ "1@2@3.PT".toList ++ after := by
  refine ⟨by decide, ?_⟩
  rintro ⟨T, msg, before, after, h1, h2⟩
  have e : parseAir T "urn:air:lora:checkpoint:civitai:1@2@3.PT".toList =
      .error "invalid model id: '1@2@3.pt' too many '@' characters".toList := rfl
  rw [e] at h1
  have hmsg := Except.error.inj h1
  have hP : 'P' ∈ before ++ "1@2@3.PT".toList ++ after := by simp
  rw [← h2, ← hmsg] at hP
  exact absurd hP (by decide)

end Civitai
